import Mathlib

/-!
Shallow embedding of `src/vec/drain.rs` from `delta4chat/heapless`: the
draining iterator `Drain` over a fixed-capacity vector, its pull operations
(`Iterator::next`, `DoubleEndedIterator::next_back`) and its panic-safe
`Drop` implementation (tail relocation guard, zero-sized-type fast path,
destroy-remainder phase).

Storage is modelled as a list of slot values: slot bit patterns survive
moves (`ptr::read`) and destructor calls, so pulling or destroying an
element changes no slot, only the bookkeeping around it.  The element size
`size_of::<T>()` is an explicit parameter `sz`.
-/

set_option linter.unusedSectionVars false
set_option linter.unusedVariables false

namespace HeaplessDrain

/-- Observable state of a `VecView<T>`: the storage slots (bit patterns,
which survive moves and destructor calls) and the length field.  Slots
`[len, buf.length)` are logically uninitialized but still hold values. -/
structure VecView (T : Type) where
  buf : List T
  len : Nat
deriving DecidableEq

/-- State of the source's `slice::Iter` field: the half-open interval
`[front, back)` of storage indices not yet yielded. -/
structure SliceIter where
  front : Nat
  back : Nat
deriving DecidableEq

/-- The `Drain` struct (drain.rs lines 24-32).  The `vec` back-pointer is
not stored; the referenced `VecView` is threaded explicitly instead. -/
structure Drain (T : Type) where
  tail_start : Nat
  tail_len : Nat
  iter : SliceIter
deriving DecidableEq

/-- The contiguous slots `[a, b)` of a storage list. -/
def seg {T : Type} (l : List T) (a b : Nat) : List T :=
  (l.drop a).take (b - a)

/-- Overlap-safe `ptr::copy` (memmove) of `cnt` slots from index `src` to
index `dst` inside one storage list: the destination range receives a
snapshot of the source range, everything else is unchanged. -/
def copyWithin {T : Type} (l : List T) (src dst cnt : Nat) : List T :=
  l.take dst ++ (l.drop src).take cnt ++ l.drop (dst + cnt)

variable {T : Type} [Inhabited T]

/-- Remaining element count of a slice iterator (`iter.len()`). -/
def SliceIter.len (it : SliceIter) : Nat := it.back - it.front

/-- `slice::Iter::next` over the storage: yield the front slot of the
remaining range and advance, or signal exhaustion. -/
def SliceIter.next (it : SliceIter) (buf : List T) : Option T × SliceIter :=
  if it.front < it.back then
    (some (buf.getD it.front default), ⟨it.front + 1, it.back⟩)
  else (none, it)

/-- `slice::Iter::next_back`: yield the last slot of the remaining range
and retreat, or signal exhaustion. -/
def SliceIter.next_back (it : SliceIter) (buf : List T) : Option T × SliceIter :=
  if it.front < it.back then
    (some (buf.getD (it.back - 1) default), ⟨it.front, it.back - 1⟩)
  else (none, it)

/-- `Iterator::next` for `Drain` (drain.rs lines 73-77): advance the inner
slice iterator and `ptr::read` the element out; the container is untouched. -/
def Drain.next (d : Drain T) (v : VecView T) : Option T × Drain T :=
  let p := d.iter.next v.buf
  (p.1, { d with iter := p.2 })

/-- `DoubleEndedIterator::next_back` for `Drain` (drain.rs lines 86-90). -/
def Drain.next_back (d : Drain T) (v : VecView T) : Option T × Drain T :=
  let p := d.iter.next_back v.buf
  (p.1, { d with iter := p.2 })

/-- Modelled from the spec (§4.1): `set_len` overwrites the length field
with no validity checking.  The real method lives in `vec.rs`, which is not
among the provided sources. -/
def VecView.set_len (v : VecView T) (n : Nat) : VecView T := ⟨v.buf, n⟩

/-- Modelled from the spec (§4.1): `truncate(new_L)` destroys elements
`[new_L, L)` in place (storage bits untouched) and sets `length = new_L`;
a no-op when `new_L ≥ L`.  Returns the destroyed values in order.  The real
method lives in `vec.rs`, which is not among the provided sources. -/
def VecView.truncate (v : VecView T) (n : Nat) : VecView T × List T :=
  if n < v.len then (⟨v.buf, n⟩, seg v.buf n v.len) else (v, [])

/-- Modelled from the spec (§4.2): `Vec::drain(start, end)` hides
`[start, L)` by reporting length `start`, and hands out a cursor over range
`[start, end)` with `tail_start = end` and `tail_len = L - end`.  The
construction lives in `vec.rs`, which is not among the provided sources. -/
def VecView.drain (v : VecView T) (s e : Nat) : Drain T × VecView T :=
  (⟨e, v.len - e, ⟨s, e⟩⟩, ⟨v.buf, s⟩)

/-- Low-level events emitted by the cleanup path, in program order:
length writes, destructor invocations, the read of the remaining-range
slice pointer (drain.rs line 146), the pointer arithmetic against the
container base (line 155), and the guard's `ptr::copy` tail relocation. -/
inductive DropEvent (T : Type) where
  | setLenEv : Nat → DropEvent T
  | destroyEv : T → DropEvent T
  | readSlicePtrEv : DropEvent T
  | ptrArithEv : DropEvent T
  | relocateEv : DropEvent T
deriving DecidableEq

/-- True exactly on destructor-invocation events. -/
def DropEvent.isDestroy : DropEvent T → Bool
  | destroyEv _ => true
  | _ => false

/-- True exactly on tail-relocation events. -/
def DropEvent.isRelocate : DropEvent T → Bool
  | relocateEv => true
  | _ => false

/-- The body of `DropGuard`'s `Drop` (drain.rs lines 98-115): if a tail is
preserved, move it back next to the surviving head with an overlap-safe
copy (skipped when source and destination coincide) and restore the
length to `start + tail_len`. -/
def dropGuardRun (d : Drain T) (v : VecView T) : VecView T :=
  if 0 < d.tail_len then
    let start := v.len
    let tail := d.tail_start
    let buf := if tail ≠ start then copyWithin v.buf tail start d.tail_len else v.buf
    ⟨buf, start + d.tail_len⟩
  else v

/-- The events the guard body emits, in order. -/
def guardTrace (d : Drain T) (v : VecView T) : List (DropEvent T) :=
  if 0 < d.tail_len then
    (if d.tail_start ≠ v.len then [DropEvent.relocateEv] else []) ++
      [DropEvent.setLenEv (v.len + d.tail_len)]
  else []

/-- Outcome of running `Drop for Drain`: the final container state, the
values whose destructors were invoked (in invocation order), and the full
event trace in program order. -/
structure DropResult (T : Type) where
  vec : VecView T
  destroyed : List T
  trace : List (DropEvent T)
deriving DecidableEq

/-- `Drop for Drain` (drain.rs lines 93-160), with `sz = size_of::<T>()`.
Zero-sized path: re-expose `drop_len + tail_len` phantom slots by length
manipulation and truncate.  Nonzero path: the guard is armed; if
`drop_len = 0` the function returns early (only the guard body runs); else
the remaining-range slice pointer is read, the drop offset computed, the
`drop_len` remaining elements destroyed in place, and then the guard body
runs at scope exit. -/
def drainDrop (sz : Nat) (d : Drain T) (v : VecView T) : DropResult T :=
  let drop_len := d.iter.len
  if sz = 0 then
    let old_len := v.len
    let v1 := v.set_len (old_len + drop_len + d.tail_len)
    let p := v1.truncate (old_len + d.tail_len)
    ⟨p.1, p.2,
      DropEvent.setLenEv (old_len + drop_len + d.tail_len) ::
        (p.2.map DropEvent.destroyEv ++ [DropEvent.setLenEv (old_len + d.tail_len)])⟩
  else if drop_len = 0 then
    ⟨dropGuardRun d v, [], guardTrace d v⟩
  else
    let destroyed := seg v.buf d.iter.front d.iter.back
    ⟨dropGuardRun d v, destroyed,
      DropEvent.readSlicePtrEv :: DropEvent.ptrArithEv ::
        (destroyed.map DropEvent.destroyEv ++ guardTrace d v)⟩

/-- `Drop for Drain` on the nonzero-size path when the destructor of the
`k`-th remaining element (0-based) panics: the slice pointer has been read,
destructors up to and including `k` have been entered, then unwinding drops
the guard, whose body relocates the tail and restores the length. -/
def drainDropUnwind (k : Nat) (d : Drain T) (v : VecView T) : DropResult T :=
  let destroyed := seg v.buf d.iter.front (d.iter.front + k + 1)
  ⟨dropGuardRun d v, destroyed,
    DropEvent.readSlicePtrEv :: DropEvent.ptrArithEv ::
      (destroyed.map DropEvent.destroyEv ++ guardTrace d v)⟩

/-- Run a sequence of pulls against a live cursor: `true` is a front pull
(`next`), `false` a back pull (`next_back`).  Returns the values yielded by
front pulls in pull order, the values yielded by back pulls in pull order,
and the final cursor and container states. -/
def applyPulls : List Bool → Drain T → VecView T → List T × List T × Drain T × VecView T
  | [], d, v => ([], [], d, v)
  | true :: rest, d, v =>
    let p := d.next v
    let r := applyPulls rest p.2 v
    (p.1.toList ++ r.1, r.2.1, r.2.2)
  | false :: rest, d, v =>
    let p := d.next_back v
    let r := applyPulls rest p.2 v
    (r.1, p.1.toList ++ r.2.1, r.2.2)

/-- Construct a drain over `[s, e)` and run a pull sequence, without the
final discard: yields, cursor, and container state while the cursor is
still alive. -/
def drainPulls (v : VecView T) (s e : Nat) (ops : List Bool) :
    List T × List T × Drain T × VecView T :=
  let p := v.drain s e
  applyPulls ops p.1 p.2

/-- Full lifecycle: construct the drain over `[s, e)`, run the pull
sequence `ops`, then discard the cursor. -/
def drainRun (sz : Nat) (v : VecView T) (s e : Nat) (ops : List Bool) :
    List T × List T × DropResult T :=
  let q := drainPulls v s e ops
  (q.1, q.2.1, drainDrop sz q.2.2.1 q.2.2.2)

/-- Values yielded by front pulls over a full lifecycle. -/
def drainFrontYields (sz : Nat) (v : VecView T) (s e : Nat) (ops : List Bool) : List T :=
  (drainRun sz v s e ops).1

/-- Values yielded by back pulls over a full lifecycle, in pull order. -/
def drainBackYields (sz : Nat) (v : VecView T) (s e : Nat) (ops : List Bool) : List T :=
  (drainRun sz v s e ops).2.1

/-- The discard outcome of a full lifecycle. -/
def drainFinal (sz : Nat) (v : VecView T) (s e : Nat) (ops : List Bool) : DropResult T :=
  (drainRun sz v s e ops).2.2

/-- Full lifecycle whose discard is interrupted by a panicking destructor:
construct, pull `ops`, then discard with the `k`-th remaining destructor
panicking (nonzero-size path), the guard running during unwinding. -/
def drainFinalUnwind (v : VecView T) (s e : Nat) (ops : List Bool) (k : Nat) : DropResult T :=
  let q := drainPulls v s e ops
  drainDropUnwind k q.2.2.1 q.2.2.2

/-- The container viewed as a sequence: its live prefix. -/
def VecView.seq (v : VecView T) : List T := v.buf.take v.len

/-- `l` with the index range `[a, b)` removed. -/
def removeRange {T : Type} (l : List T) (a b : Nat) : List T :=
  l.take a ++ l.drop b

/-- The ordering the claim under review asserts of a cleanup trace: every
tail-relocation event precedes every destructor invocation. -/
def relocBeforeDestroy (tr : List (DropEvent T)) : Prop :=
  ∀ i, i < tr.length → ∀ j, j < tr.length →
    (tr.getD i DropEvent.ptrArithEv).isDestroy = true →
    (tr.getD j DropEvent.ptrArithEv).isRelocate = true → j < i

instance (tr : List (DropEvent T)) : Decidable (relocBeforeDestroy tr) := by
  unfold relocBeforeDestroy
  infer_instance

/-! ### Basic facts about storage segments and overlap-safe copies -/

theorem seg_empty {l : List T} {a b : Nat} (h : b ≤ a) : seg l a b = [] := by
  unfold seg
  simp [Nat.sub_eq_zero_of_le h]

theorem seg_cons {l : List T} {a b : Nat} (hl : a < l.length) (hb : a < b) :
    seg l a b = l.getD a default :: seg l (a + 1) b := by
  unfold seg
  rw [List.drop_eq_getElem_cons hl]
  have h1 : b - a = (b - (a + 1)) + 1 := by omega
  rw [h1, List.take_succ_cons]
  simp [List.getElem?_eq_getElem hl]

theorem seg_snoc {l : List T} {a b : Nat} (hl : b - 1 < l.length) (hb : a < b) :
    seg l a b = seg l a (b - 1) ++ [l.getD (b - 1) default] := by
  unfold seg
  have h1 : b - a = (b - 1 - a) + 1 := by omega
  rw [h1, List.take_succ]
  congr 1
  rw [List.getElem?_drop]
  have h2 : a + (b - 1 - a) = b - 1 := by omega
  rw [h2, List.getElem?_eq_getElem hl]
  simp [List.getElem?_eq_getElem hl]

theorem seg_length {l : List T} {a b : Nat} (h : b ≤ l.length) :
    (seg l a b).length = b - a := by
  unfold seg
  rw [List.length_take, List.length_drop]
  omega

theorem seg_append {l : List T} {a m b : Nat} (h1 : a ≤ m) (h2 : m ≤ b) :
    seg l a m ++ seg l m b = seg l a b := by
  unfold seg
  have h3 : b - a = (m - a) + (b - m) := by omega
  rw [h3, List.take_add, List.drop_drop]
  rw [show a + (m - a) = m from by omega]

theorem copyWithin_take {l : List T} {src dst cnt : Nat}
    (h1 : dst ≤ src) (h2 : src + cnt ≤ l.length) :
    (copyWithin l src dst cnt).take (dst + cnt) = l.take dst ++ seg l src (src + cnt) := by
  unfold copyWithin seg
  have hdst : (l.take dst).length = dst := by
    rw [List.length_take]; omega
  have hcnt : ((l.drop src).take cnt).length = cnt := by
    rw [List.length_take, List.length_drop]; omega
  have hAB : (l.take dst ++ (l.drop src).take cnt).length = dst + cnt := by
    rw [List.length_append, hdst, hcnt]
  rw [List.take_append_eq_append_take, hAB,
    List.take_of_length_le (le_of_eq hAB), Nat.sub_self, List.take_zero,
    List.append_nil, show src + cnt - src = cnt from by omega]

theorem eq_of_subsingleton_of_length_eq {l1 l2 : List T}
    (hsub : ∀ x y : T, x = y) (hlen : l1.length = l2.length) : l1 = l2 := by
  induction l1 generalizing l2 with
  | nil =>
    cases l2 with
    | nil => rfl
    | cons y ys => simp at hlen
  | cons x xs ih =>
    cases l2 with
    | nil => simp at hlen
    | cons y ys =>
      simp only [List.length_cons] at hlen
      have hys := ih (show xs.length = ys.length from by omega)
      rw [hsub x y, hys]

/-! ### Behaviour of pull sequences -/

theorem applyPulls_vec (ops : List Bool) (d : Drain T) (v : VecView T) :
    (applyPulls ops d v).2.2.2 = v := by
  induction ops generalizing d with
  | nil => rfl
  | cons op rest ih => cases op <;> simp [applyPulls, ih]

/-- Invariant of an arbitrary pull sequence over a cursor whose remaining
range is `[a, c)`: some `f` front pulls and `b` back pulls succeed, the
front yields read the range left-to-right, the back yields read it
right-to-left, the cursor shrinks to `[a + f, c - b)`, the container is
untouched, and a sequence of at least `c - a` pulls exhausts the range. -/
theorem pulls_inv (ops : List Bool) : ∀ (ts tl a c : Nat) (v : VecView T),
    a ≤ c → c ≤ v.buf.length →
    ∃ f b, f + b ≤ c - a ∧
      applyPulls ops ⟨ts, tl, ⟨a, c⟩⟩ v =
        (seg v.buf a (a + f), (seg v.buf (c - b) c).reverse,
          ⟨ts, tl, ⟨a + f, c - b⟩⟩, v) ∧
      (c - a ≤ ops.length → f + b = c - a) := by
  induction ops with
  | nil =>
    intro ts tl a c v hac hcb
    refine ⟨0, 0, by omega, ?_, by intro h; simp only [List.length_nil] at h; omega⟩
    simp [applyPulls, seg_empty (le_refl a), seg_empty (le_refl c)]
  | cons op rest ih =>
    intro ts tl a c v hac hcb
    by_cases hlt : a < c
    · cases op with
      | true =>
        obtain ⟨f, b, hfb, heq, hexh⟩ := ih ts tl (a + 1) c v (by omega) hcb
        refine ⟨f + 1, b, by omega, ?_, ?_⟩
        · have hnext : (Drain.next ⟨ts, tl, ⟨a, c⟩⟩ v : Option T × Drain T)
              = (some (v.buf.getD a default), ⟨ts, tl, ⟨a + 1, c⟩⟩) := by
            simp [Drain.next, SliceIter.next, hlt]
          rw [show a + (f + 1) = (a + 1) + f from by omega]
          simp only [applyPulls, hnext, heq]
          rw [seg_cons (show a < v.buf.length from by omega)
            (show a < a + 1 + f from by omega)]
          simp
        · intro h
          simp only [List.length_cons] at h
          have := hexh (by omega)
          omega
      | false =>
        obtain ⟨f, b, hfb, heq, hexh⟩ := ih ts tl a (c - 1) v (by omega) (by omega)
        refine ⟨f, b + 1, by omega, ?_, ?_⟩
        · have hnext : (Drain.next_back ⟨ts, tl, ⟨a, c⟩⟩ v : Option T × Drain T)
              = (some (v.buf.getD (c - 1) default), ⟨ts, tl, ⟨a, c - 1⟩⟩) := by
            simp [Drain.next_back, SliceIter.next_back, hlt]
          rw [show c - (b + 1) = (c - 1) - b from by omega]
          simp only [applyPulls, hnext, heq]
          rw [seg_snoc (show c - 1 < v.buf.length from by omega)
            (show c - 1 - b < c from by omega)]
          simp
        · intro h
          simp only [List.length_cons] at h
          have := hexh (by omega)
          omega
    · have hce : a = c := by omega
      obtain ⟨f, b, hfb, heq, hexh⟩ := ih ts tl a c v hac hcb
      have hf0 : f = 0 := by omega
      have hb0 : b = 0 := by omega
      subst hf0 hb0
      refine ⟨0, 0, by omega, ?_, by intro h; omega⟩
      cases op with
      | true =>
        have hnext : (Drain.next ⟨ts, tl, ⟨a, c⟩⟩ v : Option T × Drain T)
            = (none, ⟨ts, tl, ⟨a, c⟩⟩) := by
          simp [Drain.next, SliceIter.next, hlt]
        simp only [applyPulls, hnext, heq]
        simp
      | false =>
        have hnext : (Drain.next_back ⟨ts, tl, ⟨a, c⟩⟩ v : Option T × Drain T)
            = (none, ⟨ts, tl, ⟨a, c⟩⟩) := by
          simp [Drain.next_back, SliceIter.next_back, hlt]
        simp only [applyPulls, hnext, heq]
        simp

/-! ### Behaviour of the discard path -/

theorem dropGuardRun_eq (buf : List T) (s e tl : Nat) (it : SliceIter) :
    dropGuardRun (⟨e, tl, it⟩ : Drain T) ⟨buf, s⟩ =
      if 0 < tl then
        (⟨if e ≠ s then copyWithin buf e s tl else buf, s + tl⟩ : VecView T)
      else ⟨buf, s⟩ := rfl

theorem dropGuardRun_len (buf : List T) (s e L : Nat) (it : SliceIter) :
    (dropGuardRun ⟨e, L - e, it⟩ ⟨buf, s⟩).len = s + (L - e) := by
  rw [dropGuardRun_eq]
  by_cases h0 : 0 < L - e
  · rw [if_pos h0]
  · rw [if_neg h0]
    show s = s + (L - e)
    omega

theorem dropGuardRun_take (buf : List T) (s e L : Nat) (it : SliceIter)
    (hse : s ≤ e) (heL : e ≤ L) (hLb : L ≤ buf.length) :
    (dropGuardRun ⟨e, L - e, it⟩ ⟨buf, s⟩).buf.take (s + (L - e)) =
      buf.take s ++ seg buf e L := by
  rw [dropGuardRun_eq]
  by_cases h0 : 0 < L - e
  · rw [if_pos h0]
    by_cases hne : e ≠ s
    · rw [if_pos hne]
      show (copyWithin buf e s (L - e)).take (s + (L - e)) = _
      rw [copyWithin_take hse (by omega)]
      rw [show e + (L - e) = L from by omega]
    · rw [if_neg hne]
      have hes : e = s := by omega
      subst hes
      show buf.take (e + (L - e)) = _
      rw [List.take_add]
      rfl
  · rw [if_neg h0]
    have hLe : L = e := by omega
    subst hLe
    show buf.take (s + (L - L)) = _
    rw [show L - L = 0 from by omega, Nat.add_zero, seg_empty (le_refl L),
      List.append_nil]

theorem drainDrop_zst_eq (d : Drain T) (v : VecView T) :
    drainDrop 0 d v =
      if v.len + d.tail_len < v.len + d.iter.len + d.tail_len then
        ⟨⟨v.buf, v.len + d.tail_len⟩,
          seg v.buf (v.len + d.tail_len) (v.len + d.iter.len + d.tail_len),
          DropEvent.setLenEv (v.len + d.iter.len + d.tail_len) ::
            ((seg v.buf (v.len + d.tail_len)
                (v.len + d.iter.len + d.tail_len)).map DropEvent.destroyEv ++
              [DropEvent.setLenEv (v.len + d.tail_len)])⟩
      else
        ⟨⟨v.buf, v.len + d.iter.len + d.tail_len⟩, [],
          DropEvent.setLenEv (v.len + d.iter.len + d.tail_len) ::
            [DropEvent.setLenEv (v.len + d.tail_len)]⟩ := by
  by_cases h : v.len + d.tail_len < v.len + d.iter.len + d.tail_len
  · rw [if_pos h]
    simp [drainDrop, VecView.set_len, VecView.truncate, h]
  · rw [if_neg h]
    simp [drainDrop, VecView.set_len, VecView.truncate, h]

theorem drainDrop_pos_eq (sz : Nat) (d : Drain T) (v : VecView T)
    (hsz : sz ≠ 0) :
    drainDrop sz d v =
      if d.iter.len = 0 then
        ⟨dropGuardRun d v, [], guardTrace d v⟩
      else
        ⟨dropGuardRun d v, seg v.buf d.iter.front d.iter.back,
          DropEvent.readSlicePtrEv :: DropEvent.ptrArithEv ::
            ((seg v.buf d.iter.front d.iter.back).map DropEvent.destroyEv ++
              guardTrace d v)⟩ := by
  by_cases h : d.iter.len = 0
  · rw [if_pos h]
    simp [drainDrop, hsz, h]
  · rw [if_neg h]
    simp [drainDrop, hsz, h]

theorem drainDrop_vec (sz : Nat) (d : Drain T) (v : VecView T) :
    (drainDrop sz d v).vec =
      if sz = 0 then ⟨v.buf, v.len + d.tail_len⟩ else dropGuardRun d v := by
  by_cases hsz : sz = 0
  · subst hsz
    rw [drainDrop_zst_eq, if_pos rfl]
    by_cases h : v.len + d.tail_len < v.len + d.iter.len + d.tail_len
    · rw [if_pos h]
    · rw [if_neg h]
      show (⟨v.buf, v.len + d.iter.len + d.tail_len⟩ : VecView T) = _
      have : d.iter.len = 0 := by omega
      rw [this]
      simp
  · rw [drainDrop_pos_eq sz d v hsz, if_neg hsz]
    by_cases h : d.iter.len = 0
    · rw [if_pos h]
    · rw [if_neg h]

theorem drainDrop_destroyed (sz : Nat) (d : Drain T) (v : VecView T)
    (hsz : sz ≠ 0) :
    (drainDrop sz d v).destroyed = seg v.buf d.iter.front d.iter.back := by
  rw [drainDrop_pos_eq sz d v hsz]
  by_cases h : d.iter.len = 0
  · rw [if_pos h]
    have hba : d.iter.back ≤ d.iter.front := by
      simp only [SliceIter.len] at h
      omega
    rw [seg_empty hba]
  · rw [if_neg h]

theorem drainDrop_destroyed_zst (d : Drain T) (v : VecView T) :
    (drainDrop 0 d v).destroyed =
      seg v.buf (v.len + d.tail_len) (v.len + d.iter.len + d.tail_len) := by
  rw [drainDrop_zst_eq]
  by_cases h : v.len + d.tail_len < v.len + d.iter.len + d.tail_len
  · rw [if_pos h]
  · rw [if_neg h]
    show ([] : List T) = _
    rw [seg_empty (by omega)]

theorem drainDrop_zst_no_reloc (d : Drain T) (v : VecView T) :
    DropEvent.relocateEv ∉ (drainDrop 0 d v).trace := by
  rw [drainDrop_zst_eq]
  by_cases h : v.len + d.tail_len < v.len + d.iter.len + d.tail_len
  · rw [if_pos h]
    intro hmem
    rcases List.mem_cons.mp hmem with h1 | h1
    · exact DropEvent.noConfusion h1
    rcases List.mem_append.mp h1 with h2 | h2
    · obtain ⟨x, _, hx⟩ := List.mem_map.mp h2
      exact DropEvent.noConfusion hx
    rcases List.mem_cons.mp h2 with h3 | h3
    · exact DropEvent.noConfusion h3
    · exact absurd h3 (List.not_mem_nil _)
  · rw [if_neg h]
    intro hmem
    rcases List.mem_cons.mp hmem with h1 | h1
    · exact DropEvent.noConfusion h1
    rcases List.mem_cons.mp h1 with h2 | h2
    · exact DropEvent.noConfusion h2
    · exact absurd h2 (List.not_mem_nil _)

/-! ### Behaviour of the full lifecycle -/

theorem drainPulls_spec (v : VecView T) (s e : Nat) (ops : List Bool)
    (hse : s ≤ e) (hcb : e ≤ v.buf.length) :
    ∃ f b, f + b ≤ e - s ∧
      drainPulls v s e ops =
        (seg v.buf s (s + f), (seg v.buf (e - b) e).reverse,
          ⟨e, v.len - e, ⟨s + f, e - b⟩⟩, ⟨v.buf, s⟩) ∧
      (e - s ≤ ops.length → f + b = e - s) := by
  obtain ⟨f, b, hfb, heq, hexh⟩ :=
    pulls_inv ops e (v.len - e) s e ⟨v.buf, s⟩ hse hcb
  exact ⟨f, b, hfb, by simpa [drainPulls, VecView.drain] using heq, hexh⟩

theorem removeRange_take (buf : List T) (s e L : Nat)
    (hse : s ≤ e) (heL : e ≤ L) :
    removeRange (buf.take L) s e = buf.take s ++ seg buf e L := by
  unfold removeRange seg
  rw [List.take_take, Nat.min_eq_left (by omega), List.drop_take]

theorem drainFinal_vec (sz : Nat) (v : VecView T) (s e : Nat) (ops : List Bool)
    (hse : s ≤ e) (hcb : e ≤ v.buf.length) :
    (drainFinal sz v s e ops).vec =
      if sz = 0 then ⟨v.buf, s + (v.len - e)⟩
      else dropGuardRun ⟨e, v.len - e, ⟨s, e⟩⟩ ⟨v.buf, s⟩ := by
  obtain ⟨f, b, hfb, heq, hexh⟩ := drainPulls_spec v s e ops hse hcb
  simp only [drainFinal, drainRun, heq]
  rw [drainDrop_vec]
  by_cases hsz : sz = 0
  · rw [if_pos hsz, if_pos hsz]
  · rw [if_neg hsz, if_neg hsz, dropGuardRun_eq, dropGuardRun_eq]

theorem drainFinal_len_seq (sz : Nat) (v : VecView T) (s e : Nat)
    (ops : List Bool)
    (hse : s ≤ e) (heL : e ≤ v.len) (hLb : v.len ≤ v.buf.length)
    (hzst : sz = 0 → ∀ x y : T, x = y) :
    (drainFinal sz v s e ops).vec.len = s + (v.len - e) ∧
    (drainFinal sz v s e ops).vec.seq = removeRange v.seq s e := by
  rw [drainFinal_vec sz v s e ops hse (by omega)]
  by_cases hsz : sz = 0
  · rw [if_pos hsz]
    refine ⟨rfl, ?_⟩
    simp only [VecView.seq]
    rw [removeRange_take v.buf s e v.len hse heL]
    apply eq_of_subsingleton_of_length_eq (hzst hsz)
    rw [List.length_take, List.length_append, List.length_take,
      seg_length hLb]
    omega
  · rw [if_neg hsz]
    refine ⟨dropGuardRun_len _ _ _ _ _, ?_⟩
    simp only [VecView.seq]
    rw [dropGuardRun_len, dropGuardRun_take v.buf s e v.len _ hse heL hLb,
      removeRange_take v.buf s e v.len hse heL]

theorem drainDrop_destroyed_at (sz : Nat) (buf : List T) (m ts tl a c : Nat)
    (hsz : sz ≠ 0) :
    (drainDrop sz ⟨ts, tl, ⟨a, c⟩⟩ ⟨buf, m⟩).destroyed = seg buf a c := by
  rw [drainDrop_destroyed sz _ _ hsz]

theorem drainDrop_destroyed_zst_at (buf : List T) (m ts tl a c : Nat) :
    (drainDrop 0 (⟨ts, tl, ⟨a, c⟩⟩ : Drain T) ⟨buf, m⟩).destroyed =
      seg buf (m + tl) (m + (c - a) + tl) := by
  rw [drainDrop_destroyed_zst]
  rfl

theorem guardTrace_events (d : Drain T) (v : VecView T) (ev : DropEvent T)
    (h : ev ∈ guardTrace d v) :
    ev = DropEvent.relocateEv ∨ ∃ n, ev = DropEvent.setLenEv n := by
  unfold guardTrace at h
  by_cases h0 : 0 < d.tail_len
  · rw [if_pos h0] at h
    rcases List.mem_append.mp h with h1 | h1
    · by_cases hne : d.tail_start ≠ v.len
      · rw [if_pos hne] at h1
        exact Or.inl (List.mem_singleton.mp h1)
      · rw [if_neg hne] at h1
        exact absurd h1 (List.not_mem_nil _)
    · exact Or.inr ⟨v.len + d.tail_len, List.mem_singleton.mp h1⟩
  · rw [if_neg h0] at h
    exact absurd h (List.not_mem_nil _)

theorem next_none (d : Drain T) (v : VecView T) (h : (d.next v).1 = none) :
    d.iter.back ≤ d.iter.front ∧ (d.next v).2 = d := by
  by_cases hlt : d.iter.front < d.iter.back
  · simp [Drain.next, SliceIter.next, hlt] at h
  · refine ⟨by omega, ?_⟩
    simp [Drain.next, SliceIter.next, hlt]

theorem next_back_none (d : Drain T) (v : VecView T)
    (h : (d.next_back v).1 = none) :
    d.iter.back ≤ d.iter.front ∧ (d.next_back v).2 = d := by
  by_cases hlt : d.iter.front < d.iter.back
  · simp [Drain.next_back, SliceIter.next_back, hlt] at h
  · refine ⟨by omega, ?_⟩
    simp [Drain.next_back, SliceIter.next_back, hlt]

theorem applyPulls_exhausted (ops : List Bool) (d : Drain T) (v : VecView T)
    (h : d.iter.back ≤ d.iter.front) :
    applyPulls ops d v = ([], [], d, v) := by
  induction ops with
  | nil => rfl
  | cons op rest ih =>
    have hnf : d.next v = (none, d) := by
      simp [Drain.next, SliceIter.next,
        show ¬d.iter.front < d.iter.back from by omega]
    have hnb : d.next_back v = (none, d) := by
      simp [Drain.next_back, SliceIter.next_back,
        show ¬d.iter.front < d.iter.back from by omega]
    cases op <;> simp [applyPulls, hnf, hnb, ih]

/-! ### Claims -/

/-- C1: for every container of original length `L`, every valid range with
`start ≤ end ≤ L`, and every element type (when `size_of::<T>() = 0` the
values of the type are indistinguishable), discarding the drain cursor
after pulling every element of the range (any pull sequence long enough to
exhaust it) leaves the container equal to the original sequence with the
elements at indices `[start, end)` removed and the remaining elements in
their original order. -/
theorem full_drain_discard_removes_range (sz : Nat) (v : VecView T)
    (s e : Nat) (ops : List Bool)
    (hse : s ≤ e) (heL : e ≤ v.len) (hLb : v.len ≤ v.buf.length)
    (hops : e - s ≤ ops.length)
    (hzst : sz = 0 → ∀ x y : T, x = y) :
    (drainFinal sz v s e ops).vec.seq = removeRange v.seq s e :=
  (drainFinal_len_seq sz v s e ops hse heL hLb hzst).2

/-- Witness for C1 at container `[1, 2, 3, 4]`, range `[1, 3)`, one front
pull and one back pull. -/
theorem full_drain_discard_removes_range_witness :
    (drainFinal 4 (⟨[1, 2, 3, 4], 4⟩ : VecView Nat) 1 3 [true, false]).vec.seq =
      removeRange (VecView.seq ⟨[1, 2, 3, 4], 4⟩) 1 3 :=
  full_drain_discard_removes_range 4 ⟨[1, 2, 3, 4], 4⟩ 1 3 [true, false]
    (by decide) (by decide) (by decide) (by decide)
    (fun h => absurd h (by decide))

/-- C2: for every valid range `[start, end)` over a container of length `L`
and every `k ≤ end - start`, pulling exactly `k` elements from the front
and then discarding the cursor yields the same final container contents as
fully draining: the original sequence with `[start, end)` removed,
independent of `k`. -/
theorem partial_pull_discard_eq_full (sz : Nat) (v : VecView T)
    (s e k : Nat)
    (hse : s ≤ e) (heL : e ≤ v.len) (hLb : v.len ≤ v.buf.length)
    (hk : k ≤ e - s)
    (hzst : sz = 0 → ∀ x y : T, x = y) :
    (drainFinal sz v s e (List.replicate k true)).vec.seq =
        removeRange v.seq s e ∧
    (drainFinal sz v s e (List.replicate k true)).vec =
      (drainFinal sz v s e (List.replicate (e - s) true)).vec := by
  refine ⟨(drainFinal_len_seq sz v s e _ hse heL hLb hzst).2, ?_⟩
  rw [drainFinal_vec sz v s e _ hse (by omega),
    drainFinal_vec sz v s e _ hse (by omega)]

/-- Witness for C2 at container `[1, 2, 3, 4]`, range `[1, 3)`, one element
pulled. -/
theorem partial_pull_discard_eq_full_witness :
    (drainFinal 1 (⟨[1, 2, 3, 4], 4⟩ : VecView Nat) 1 3
        (List.replicate 1 true)).vec.seq =
      removeRange (VecView.seq ⟨[1, 2, 3, 4], 4⟩) 1 3 ∧
    (drainFinal 1 (⟨[1, 2, 3, 4], 4⟩ : VecView Nat) 1 3
        (List.replicate 1 true)).vec =
      (drainFinal 1 (⟨[1, 2, 3, 4], 4⟩ : VecView Nat) 1 3
        (List.replicate (3 - 1) true)).vec :=
  partial_pull_discard_eq_full 1 ⟨[1, 2, 3, 4], 4⟩ 1 3 1
    (by decide) (by decide) (by decide) (by decide)
    (fun h => absurd h (by decide))

/-- C6: for every container, every element size, and every index
`start ≤ L`, draining the empty range `[start, start)` and immediately
discarding the cursor leaves the container byte-for-byte unchanged: same
length and same contents in every storage slot, and no destructor runs. -/
theorem empty_range_drain_noop (sz : Nat) (v : VecView T) (s : Nat)
    (hsL : s ≤ v.len) :
    (drainFinal sz v s s []).vec = v ∧
    (drainFinal sz v s s []).destroyed = [] := by
  have hq : drainPulls v s s ([] : List Bool) =
      ([], [], ⟨s, v.len - s, ⟨s, s⟩⟩, ⟨v.buf, s⟩) := by
    simp [drainPulls, VecView.drain, applyPulls]
  constructor
  · simp only [drainFinal, drainRun, hq]
    rw [drainDrop_vec]
    by_cases hsz : sz = 0
    · rw [if_pos hsz]
      show (⟨v.buf, s + (v.len - s)⟩ : VecView T) = v
      rw [show s + (v.len - s) = v.len from by omega]
    · rw [if_neg hsz, dropGuardRun_eq]
      by_cases h0 : 0 < v.len - s
      · rw [if_pos h0, if_neg (fun h => h rfl)]
        show (⟨v.buf, s + (v.len - s)⟩ : VecView T) = v
        rw [show s + (v.len - s) = v.len from by omega]
      · rw [if_neg h0]
        show (⟨v.buf, s⟩ : VecView T) = v
        rw [show s = v.len from by omega]
  · by_cases hsz : sz = 0
    · subst hsz
      simp only [drainFinal, drainRun, hq]
      rw [drainDrop_destroyed_zst_at]
      exact seg_empty (by omega)
    · simp only [drainFinal, drainRun, hq]
      rw [drainDrop_destroyed_at sz v.buf s s (v.len - s) s s hsz]
      exact seg_empty (le_refl s)

/-- Witness for C6 at container `[1, 2]`, empty range `[1, 1)`. -/
theorem empty_range_drain_noop_witness :
    (drainFinal 3 (⟨[1, 2], 2⟩ : VecView Nat) 1 1 []).vec = ⟨[1, 2], 2⟩ ∧
    (drainFinal 3 (⟨[1, 2], 2⟩ : VecView Nat) 1 1 []).destroyed = [] :=
  empty_range_drain_noop 3 ⟨[1, 2], 2⟩ 1 (by decide)

/-- C9: while a drain cursor is alive — after construction and across any
sequence of pull-front and pull-back calls, before discard — the
container's state is exactly `⟨original storage, start⟩`: the reported
length equals `start`, the left edge of the removal range, and neither
pull operation mutates the length or the storage. -/
theorem live_cursor_container_frozen (v : VecView T) (s e : Nat)
    (ops : List Bool) :
    (drainPulls v s e ops).2.2.2 = ⟨v.buf, s⟩ := by
  simp only [drainPulls]
  rw [applyPulls_vec]
  rfl

/-- C4: for a zero-storage-footprint element type (`sz = 0`) and every
valid range `[start, end)` over a container of original length `L`,
draining and then discarding the cursor after any partial consumption of
`p` elements runs the element destructor exactly `(end - start) - p` times
during cleanup — so exactly `end - start` destructor invocations plus
yields occur over the whole drain — and leaves the container with length
`L - (end - start)`; no tail relocation is performed in this case. -/
theorem zst_drain_counts (v : VecView T) (s e : Nat) (ops : List Bool)
    (hse : s ≤ e) (heL : e ≤ v.len) (hLb : v.len ≤ v.buf.length) :
    (drainFinal 0 v s e ops).destroyed.length =
      (e - s) - ((drainFrontYields 0 v s e ops).length +
        (drainBackYields 0 v s e ops).length) ∧
    (drainFrontYields 0 v s e ops).length +
        (drainBackYields 0 v s e ops).length +
        (drainFinal 0 v s e ops).destroyed.length = e - s ∧
    (drainFinal 0 v s e ops).vec.len = v.len - (e - s) ∧
    DropEvent.relocateEv ∉ (drainFinal 0 v s e ops).trace := by
  obtain ⟨f, b, hfb, heq, hexh⟩ := drainPulls_spec v s e ops hse (by omega)
  have hfy : (drainFrontYields 0 v s e ops).length = f := by
    simp only [drainFrontYields, drainRun, heq]
    rw [seg_length (by omega)]
    omega
  have hby : (drainBackYields 0 v s e ops).length = b := by
    simp only [drainBackYields, drainRun, heq]
    rw [List.length_reverse, seg_length (by omega)]
    omega
  have hfin : drainFinal 0 v s e ops =
      drainDrop 0 ⟨e, v.len - e, ⟨s + f, e - b⟩⟩ ⟨v.buf, s⟩ := by
    simp only [drainFinal, drainRun, heq]
  have hdest : (drainFinal 0 v s e ops).destroyed.length = e - s - (f + b) := by
    rw [hfin, drainDrop_destroyed_zst_at, seg_length (by omega)]
    omega
  refine ⟨?_, ?_, ?_, ?_⟩
  · rw [hdest, hfy, hby]
  · rw [hdest, hfy, hby]
    omega
  · rw [drainFinal_vec 0 v s e ops hse (by omega), if_pos rfl]
    show s + (v.len - e) = v.len - (e - s)
    omega
  · rw [hfin]
    exact drainDrop_zst_no_reloc _ _

/-- Witness for C4 at container `[7, 7, 7, 7]`, range `[1, 3)`, one front
pull. -/
theorem zst_drain_counts_witness :
    (drainFinal 0 (⟨[7, 7, 7, 7], 4⟩ : VecView Nat) 1 3 [true]).destroyed.length =
      (3 - 1) - ((drainFrontYields 0 ⟨[7, 7, 7, 7], 4⟩ 1 3 [true]).length +
        (drainBackYields 0 ⟨[7, 7, 7, 7], 4⟩ 1 3 [true]).length) ∧
    (drainFrontYields 0 (⟨[7, 7, 7, 7], 4⟩ : VecView Nat) 1 3 [true]).length +
        (drainBackYields 0 ⟨[7, 7, 7, 7], 4⟩ 1 3 [true]).length +
        (drainFinal 0 ⟨[7, 7, 7, 7], 4⟩ 1 3 [true]).destroyed.length = 3 - 1 ∧
    (drainFinal 0 (⟨[7, 7, 7, 7], 4⟩ : VecView Nat) 1 3 [true]).vec.len =
      4 - (3 - 1) ∧
    DropEvent.relocateEv ∉
      (drainFinal 0 (⟨[7, 7, 7, 7], 4⟩ : VecView Nat) 1 3 [true]).trace :=
  zst_drain_counts ⟨[7, 7, 7, 7], 4⟩ 1 3 [true]
    (by decide) (by decide) (by decide)

/-- C5: for every valid range `[start, end)` and every interleaving of
pull-front and pull-back calls, the yielded values are exactly a prefix of
`[start, end)` read left-to-right by the front pulls and a suffix read
right-to-left by the back pulls, with no repeats; an interleaving long
enough to pull every element yields exactly the elements of `[start, end)`
with no omissions; and after discard the final container state is
identical across all interleavings (in particular across all interleavings
pulling the same total count). -/
theorem interleaved_pulls_exact_and_final_indep (sz : Nat) (v : VecView T)
    (s e : Nat) (ops : List Bool)
    (hse : s ≤ e) (heL : e ≤ v.len) (hLb : v.len ≤ v.buf.length) :
    (∃ f b, f + b ≤ e - s ∧
      drainFrontYields sz v s e ops = seg v.buf s (s + f) ∧
      drainBackYields sz v s e ops = (seg v.buf (e - b) e).reverse ∧
      (e - s ≤ ops.length →
        drainFrontYields sz v s e ops ++
          (drainBackYields sz v s e ops).reverse = seg v.buf s e)) ∧
    ∀ ops2, (drainFinal sz v s e ops).vec = (drainFinal sz v s e ops2).vec := by
  obtain ⟨f, b, hfb, heq, hexh⟩ := drainPulls_spec v s e ops hse (by omega)
  have hfy : drainFrontYields sz v s e ops = seg v.buf s (s + f) := by
    simp only [drainFrontYields, drainRun, heq]
  have hby : drainBackYields sz v s e ops = (seg v.buf (e - b) e).reverse := by
    simp only [drainBackYields, drainRun, heq]
  refine ⟨⟨f, b, hfb, hfy, hby, ?_⟩, ?_⟩
  · intro hlen
    have hfb2 := hexh hlen
    rw [hfy, hby, List.reverse_reverse,
      show e - b = s + f from by omega]
    exact seg_append (by omega) (by omega)
  · intro ops2
    rw [drainFinal_vec sz v s e ops hse (by omega),
      drainFinal_vec sz v s e ops2 hse (by omega)]

/-- Witness for C5 at container `[1, 2, 3, 4]`, range `[0, 4)`, pulls
front, back, front, back. -/
theorem interleaved_pulls_exact_and_final_indep_witness :
    (∃ f b, f + b ≤ 4 - 0 ∧
      drainFrontYields 1 (⟨[1, 2, 3, 4], 4⟩ : VecView Nat) 0 4
          [true, false, true, false] = seg [1, 2, 3, 4] 0 (0 + f) ∧
      drainBackYields 1 (⟨[1, 2, 3, 4], 4⟩ : VecView Nat) 0 4
          [true, false, true, false] = (seg [1, 2, 3, 4] (4 - b) 4).reverse ∧
      (4 - 0 ≤ [true, false, true, false].length →
        drainFrontYields 1 (⟨[1, 2, 3, 4], 4⟩ : VecView Nat) 0 4
            [true, false, true, false] ++
          (drainBackYields 1 (⟨[1, 2, 3, 4], 4⟩ : VecView Nat) 0 4
            [true, false, true, false]).reverse = seg [1, 2, 3, 4] 0 4)) ∧
    ∀ ops2,
      (drainFinal 1 (⟨[1, 2, 3, 4], 4⟩ : VecView Nat) 0 4
        [true, false, true, false]).vec =
      (drainFinal 1 (⟨[1, 2, 3, 4], 4⟩ : VecView Nat) 0 4 ops2).vec :=
  interleaved_pulls_exact_and_final_indep 1 ⟨[1, 2, 3, 4], 4⟩ 0 4
    [true, false, true, false] (by decide) (by decide) (by decide)

/-- C7: over the whole lifecycle of a drain, every element originally in
the removal range `[start, end)` is destroyed or handed to the caller
exactly once: the front yields, the values destroyed during cleanup, and
the back yields (read right-to-left) partition `[start, end)` in order,
so nothing is double-destroyed and nothing is leaked.  (When
`size_of::<T>() = 0` the values of the type are indistinguishable.) -/
theorem removal_range_yielded_or_destroyed_once (sz : Nat) (v : VecView T)
    (s e : Nat) (ops : List Bool)
    (hse : s ≤ e) (heL : e ≤ v.len) (hLb : v.len ≤ v.buf.length)
    (hzst : sz = 0 → ∀ x y : T, x = y) :
    drainFrontYields sz v s e ops ++ (drainFinal sz v s e ops).destroyed ++
      (drainBackYields sz v s e ops).reverse = seg v.buf s e := by
  obtain ⟨f, b, hfb, heq, hexh⟩ := drainPulls_spec v s e ops hse (by omega)
  have hfy : drainFrontYields sz v s e ops = seg v.buf s (s + f) := by
    simp only [drainFrontYields, drainRun, heq]
  have hby : drainBackYields sz v s e ops = (seg v.buf (e - b) e).reverse := by
    simp only [drainBackYields, drainRun, heq]
  have hfin : drainFinal sz v s e ops =
      drainDrop sz ⟨e, v.len - e, ⟨s + f, e - b⟩⟩ ⟨v.buf, s⟩ := by
    simp only [drainFinal, drainRun, heq]
  by_cases hsz : sz = 0
  · subst hsz
    apply eq_of_subsingleton_of_length_eq (hzst rfl)
    rw [List.length_append, List.length_append, List.length_reverse,
      hfy, hby, hfin, drainDrop_destroyed_zst_at,
      seg_length (by omega), seg_length (by omega), List.length_reverse,
      seg_length (by omega), seg_length (by omega)]
    omega
  · rw [hfy, hby, hfin, drainDrop_destroyed_at sz v.buf s e (v.len - e)
      (s + f) (e - b) hsz, List.reverse_reverse]
    have h1 : seg v.buf s (s + f) ++ seg v.buf (s + f) (e - b) =
        seg v.buf s (e - b) := seg_append (by omega) (by omega)
    have h2 : seg v.buf s (e - b) ++ seg v.buf (e - b) e =
        seg v.buf s e := seg_append (by omega) (by omega)
    rw [h1]
    exact h2

/-- Witness for C7 at container `[5, 6, 7]`, range `[0, 2)`, one back
pull. -/
theorem removal_range_yielded_or_destroyed_once_witness :
    drainFrontYields 2 (⟨[5, 6, 7], 3⟩ : VecView Nat) 0 2 [false] ++
      (drainFinal 2 (⟨[5, 6, 7], 3⟩ : VecView Nat) 0 2 [false]).destroyed ++
      (drainBackYields 2 (⟨[5, 6, 7], 3⟩ : VecView Nat) 0 2 [false]).reverse =
      seg [5, 6, 7] 0 2 :=
  removal_range_yielded_or_destroyed_once 2 ⟨[5, 6, 7], 3⟩ 0 2 [false]
    (by decide) (by decide) (by decide) (fun h => absurd h (by decide))

/-- C8: on the nonzero-footprint cleanup path, whenever the remaining
count `drop_len` is zero the destroy-remainder phase is skipped entirely:
the remaining-range slice pointer is never read, no pointer arithmetic
against the container base is performed, and no destructor runs — only the
guard's relocation and length restore may appear in the trace. -/
theorem drop_len_zero_skips_destroy_phase (sz : Nat) (d : Drain T)
    (v : VecView T) (hsz : sz ≠ 0) (hdl : d.iter.len = 0) :
    DropEvent.readSlicePtrEv ∉ (drainDrop sz d v).trace ∧
    DropEvent.ptrArithEv ∉ (drainDrop sz d v).trace ∧
    (drainDrop sz d v).destroyed = [] ∧
    ∀ x : T, DropEvent.destroyEv x ∉ (drainDrop sz d v).trace := by
  rw [drainDrop_pos_eq sz d v hsz, if_pos hdl]
  refine ⟨?_, ?_, rfl, ?_⟩
  · intro hmem
    rcases guardTrace_events d v _ hmem with h1 | ⟨n, h1⟩ <;>
      exact DropEvent.noConfusion h1
  · intro hmem
    rcases guardTrace_events d v _ hmem with h1 | ⟨n, h1⟩ <;>
      exact DropEvent.noConfusion h1
  · intro x hmem
    rcases guardTrace_events d v _ hmem with h1 | ⟨n, h1⟩ <;>
      exact DropEvent.noConfusion h1

/-- Witness for C8 at an exhausted cursor over a two-element container
with a one-element tail. -/
theorem drop_len_zero_skips_destroy_phase_witness :
    DropEvent.readSlicePtrEv ∉
      (drainDrop 1 (⟨2, 1, ⟨2, 2⟩⟩ : Drain Nat) ⟨[1, 2, 3], 2⟩).trace ∧
    DropEvent.ptrArithEv ∉
      (drainDrop 1 (⟨2, 1, ⟨2, 2⟩⟩ : Drain Nat) ⟨[1, 2, 3], 2⟩).trace ∧
    (drainDrop 1 (⟨2, 1, ⟨2, 2⟩⟩ : Drain Nat) ⟨[1, 2, 3], 2⟩).destroyed = [] ∧
    ∀ x : Nat, DropEvent.destroyEv x ∉
      (drainDrop 1 (⟨2, 1, ⟨2, 2⟩⟩ : Drain Nat) ⟨[1, 2, 3], 2⟩).trace :=
  drop_len_zero_skips_destroy_phase 1 ⟨2, 1, ⟨2, 2⟩⟩ ⟨[1, 2, 3], 2⟩
    (by decide) (by decide)

/-- C10: once a pull from either end has signalled exhaustion by returning
nothing, every subsequent pull-front or pull-back call (in any order) also
returns nothing: the cursor never yields an element again. -/
theorem exhausted_cursor_stays_exhausted (d : Drain T) (v : VecView T)
    (op : Bool) (ops : List Bool)
    (h : (if op then d.next v else d.next_back v).1 = none) :
    (applyPulls ops (if op then d.next v else d.next_back v).2 v).1 = [] ∧
    (applyPulls ops (if op then d.next v else d.next_back v).2 v).2.1 = [] := by
  cases op with
  | true =>
    rw [if_pos rfl] at h ⊢
    obtain ⟨hex, hsame⟩ := next_none d v h
    rw [hsame, applyPulls_exhausted ops d v hex]
    exact ⟨rfl, rfl⟩
  | false =>
    rw [if_neg (by decide : ¬((false : Bool) = true))] at h ⊢
    obtain ⟨hex, hsame⟩ := next_back_none d v h
    rw [hsame, applyPulls_exhausted ops d v hex]
    exact ⟨rfl, rfl⟩

/-- Witness for C10 at an exhausted cursor: a front pull returns nothing,
and two further pulls yield no values. -/
theorem exhausted_cursor_stays_exhausted_witness :
    (applyPulls [true, false]
      (if true then Drain.next (⟨0, 0, ⟨1, 1⟩⟩ : Drain Nat) ⟨[5, 6], 1⟩
        else Drain.next_back ⟨0, 0, ⟨1, 1⟩⟩ ⟨[5, 6], 1⟩).2 ⟨[5, 6], 1⟩).1 = [] ∧
    (applyPulls [true, false]
      (if true then Drain.next (⟨0, 0, ⟨1, 1⟩⟩ : Drain Nat) ⟨[5, 6], 1⟩
        else Drain.next_back ⟨0, 0, ⟨1, 1⟩⟩ ⟨[5, 6], 1⟩).2
      ⟨[5, 6], 1⟩).2.1 = [] :=
  exhausted_cursor_stays_exhausted ⟨0, 0, ⟨1, 1⟩⟩ ⟨[5, 6], 1⟩ true
    [true, false] (by decide)

/-- C3 counterexample: at container `[10, 20]` with removal range
`[0, 1)` and no pulls, the cleanup trace is
`[readSlicePtr, ptrArith, destroy 10, relocate, setLen 1]`: the destructor
of the remaining element runs before the tail relocation, so the claim
that the relocation has already completed before that destructor runs is
false on the code. -/
theorem destroy_runs_before_relocation :
    ¬ relocBeforeDestroy
      (drainFinal 1 (⟨[10, 20], 2⟩ : VecView Nat) 0 1 []).trace := by
  decide

/-- C3 (amended): the guard makes the tail relocation run on every exit
path — during unwinding, after the panicking destructor, not before it —
so if an element's destructor panics during the destroy-remainder phase,
once the unwind passes the guard the container's length and tail are in
the same consistent state as after a normal discard: length
`start + tail_len` and contents equal to the original sequence with
`[start, end)` removed. -/
theorem unwinding_discard_restores_container (v : VecView T) (s e : Nat)
    (ops : List Bool) (k : Nat)
    (hse : s ≤ e) (heL : e ≤ v.len) (hLb : v.len ≤ v.buf.length) :
    (drainFinalUnwind v s e ops k).vec.len = s + (v.len - e) ∧
    (drainFinalUnwind v s e ops k).vec.seq = removeRange v.seq s e ∧
    (drainFinalUnwind v s e ops k).vec = (drainFinal 1 v s e ops).vec := by
  obtain ⟨f, b, hfb, heq, hexh⟩ := drainPulls_spec v s e ops hse (by omega)
  have hvec : (drainFinalUnwind v s e ops k).vec =
      dropGuardRun ⟨e, v.len - e, ⟨s + f, e - b⟩⟩ ⟨v.buf, s⟩ := by
    simp only [drainFinalUnwind, heq]
    rfl
  refine ⟨?_, ?_, ?_⟩
  · rw [hvec, dropGuardRun_len]
  · rw [hvec]
    simp only [VecView.seq]
    rw [dropGuardRun_len, dropGuardRun_take v.buf s e v.len _ hse heL hLb,
      removeRange_take v.buf s e v.len hse heL]
  · rw [hvec, drainFinal_vec 1 v s e ops hse (by omega),
      if_neg (by omega : ¬(1 = 0)), dropGuardRun_eq, dropGuardRun_eq]

/-- Witness for the amended C3 at container `[10, 20, 30]`, range
`[0, 2)`, no pulls, panic in the first remaining destructor. -/
theorem unwinding_discard_restores_container_witness :
    (drainFinalUnwind (⟨[10, 20, 30], 3⟩ : VecView Nat) 0 2 [] 0).vec.len =
      0 + (3 - 2) ∧
    (drainFinalUnwind (⟨[10, 20, 30], 3⟩ : VecView Nat) 0 2 [] 0).vec.seq =
      removeRange (VecView.seq ⟨[10, 20, 30], 3⟩) 0 2 ∧
    (drainFinalUnwind (⟨[10, 20, 30], 3⟩ : VecView Nat) 0 2 [] 0).vec =
      (drainFinal 1 (⟨[10, 20, 30], 3⟩ : VecView Nat) 0 2 []).vec :=
  unwinding_discard_restores_container ⟨[10, 20, 30], 3⟩ 0 2 [] 0
    (by decide) (by decide) (by decide)

end HeaplessDrain
